import Mathlib

/-!
Verification of the `gotabulate` table-layout engine (`src/tabulate.go`)
against its natural-language specification.

Modelling conventions.
* Go strings are modelled as `List Char` (`GoStr`).  Go indexes strings by
  byte; the model indexes by character, which coincides with the source for
  the single-byte (ASCII) data used in every concrete statement below.
* Go's `int` is modelled as `Int` (no overflow is reachable at the sizes the
  program handles).
* `float64` arithmetic in `autoSize` is modelled as exact rational
  arithmetic over unnormalised integer fractions (`GoFrac`, a `num/den`
  pair with positive denominator).  Every concrete input appearing in a
  theorem keeps all intermediate values exactly representable in binary
  floating point (small integers and dyadic ratios), where `float64` and
  the exact rationals agree, and no division by zero occurs.
* A Go `panic` (out-of-range index, slice bound violation, `panic(...)`
  calls) is modelled by an explicit `crash` constructor; it is distinct from
  an ordinary return value.
-/

/-- A Go string, modelled as its sequence of runes. -/
abbrev GoStr := List Char

/-- Width of one rune in terminal columns, after `go-runewidth.RuneWidth`:
control characters count 0, East-Asian wide ranges count 2, everything else
counts 1.  The wide-range table is abridged (the main CJK/Hangul/fullwidth
blocks); it agrees with `go-runewidth` on all ASCII text and on the common
wide blocks, which covers every string manipulated in this development. -/
def runeWidth (c : Char) : Nat :=
  if c.toNat < 32 then 0
  else if (0x1100 ≤ c.toNat ∧ c.toNat ≤ 0x115F)
       ∨ (0x2E80 ≤ c.toNat ∧ c.toNat ≤ 0xA4CF)
       ∨ (0xAC00 ≤ c.toNat ∧ c.toNat ≤ 0xD7A3)
       ∨ (0xF900 ≤ c.toNat ∧ c.toNat ≤ 0xFAFF)
       ∨ (0xFF00 ≤ c.toNat ∧ c.toNat ≤ 0xFF60)
       ∨ (0x20000 ≤ c.toNat ∧ c.toNat ≤ 0x3FFFD) then 2
  else 1

/-- `runewidth.StringWidth`: the display width of a string. -/
def strWidth (s : GoStr) : Nat := (s.map runeWidth).sum

/-- Index of the first occurrence of `c` (Go `strings.Index` restricted to a
single-rune needle, in rune positions). -/
def firstIdxOf (c : Char) : GoStr → Option Nat
  | [] => none
  | x :: xs => if x = c then some 0 else (firstIdxOf c xs).map (· + 1)

/-- Index of the last occurrence of `c` (Go `strings.LastIndex` with a
single-rune needle, in rune positions). -/
def lastIdxOf (c : Char) : GoStr → Option Nat
  | [] => none
  | x :: xs =>
    match lastIdxOf c xs with
    | some j => some (j + 1)
    | none => if x = c then some 0 else none

/-- Greedy prefix of display width at most `w` (the truncating loop inside
`go-runewidth.Truncate`): keep consuming runes while the accumulated width
stays within `w`. -/
def takeWidth : GoStr → Int → GoStr
  | [], _ => []
  | c :: cs, w =>
    if (runeWidth c : Int) > w then [] else c :: takeWidth cs (w - (runeWidth c : Int))

/-- `runewidth.Truncate(s, w, "")`: the string itself when it already fits,
otherwise the widest prefix of display width at most `w`. -/
def truncate (s : GoStr) (w : Int) : GoStr :=
  if (strWidth s : Int) ≤ w then s else takeWidth s w

/-- One row of the table (`TabulateRow`): the cell contents and the
`Continuous` flag (set on a row whose continuation row follows it). -/
structure TabulateRow where
  Elements : List GoStr
  Continuous : Bool
deriving DecidableEq, Repr

instance : Inhabited TabulateRow := ⟨⟨[], false⟩⟩

/-- The width-based branch of the per-cell wrapping step in `wrapCellData`
(`tabulate.go:465-476`): when the cell is wider than `maxW`, truncate to the
capacity; if the last kept rune is not a space, back up to just after the
last space of the truncation (when one exists); the remainder is the suffix
of the original cell after the head.  `none` models the Go slice-bound panic
`elements[i][len(elements[i])-1:]` raised when the truncation is empty. -/
def splitWidth (e : GoStr) (maxW : Int) : Option (GoStr × GoStr × Bool) :=
  if (strWidth e : Int) > maxW then
    let t := truncate e maxW
    if t.isEmpty then none
    else
      let h := if t.getLastD ' ' ≠ ' ' then
                 match lastIdxOf ' ' t with
                 | some j => t.take (j + 1)
                 | none => t
               else t
      some (h, e.drop h.length, true)
  else some (e, [], false)

/-- The per-cell wrapping step of `wrapCellData` (`tabulate.go:459-476`):
a newline whose index is below the capacity splits the cell there (head
before the newline, remainder after it); otherwise an over-capacity cell is
split by width.  The `Bool` records whether a split happened; the remainder
is `[]` (Go's zero-value `""` in `new_elements`) when it did not. -/
def splitCell (e : GoStr) (maxW : Int) : Option (GoStr × GoStr × Bool) :=
  match firstIdxOf '\n' e with
  | some k => if (k : Int) < maxW then some (e.take k, e.drop (k + 1), true)
              else splitWidth e maxW
  | none => splitWidth e maxW

/-- Result of a Go computation that may panic. -/
inductive GoRes (α : Type) where
  | ok : α → GoRes α
  | crash : String → GoRes α
deriving DecidableEq, Repr

/-- Capacity of the cell at column `i` (`tabulate.go:455-458`): `cols[i]`
under autosize (a missing entry is the Go index-out-of-range panic),
otherwise the fixed `MaxSize`. -/
def cellCap (maxSize : Int) (autoSize : Bool) (cols : List Int) (i : Nat) : GoRes Int :=
  if autoSize then
    match cols.get? i with
    | some w => .ok w
    | none => .crash "index out of range"
  else .ok maxSize

/-- The inner cell loop of `wrapCellData` (`tabulate.go:454-477`), running
over the cells of one row with their index: each cell is split against its
capacity, producing the list of heads, the list of remainders
(`new_elements`, zero-valued for unsplit cells) and whether any cell was
split. -/
def processCells (maxSize : Int) (autoSize : Bool) (cols : List Int) :
    Nat → List GoStr → GoRes (List GoStr × List GoStr × Bool)
  | _, [] => .ok ([], [], false)
  | i, e :: es =>
    match cellCap maxSize autoSize cols i with
    | .crash m => .crash m
    | .ok w =>
      match splitCell e w with
      | none => .crash "slice bounds out of range"
      | some (h, r, did) =>
        match processCells maxSize autoSize cols (i + 1) es with
        | .crash m => .crash m
        | .ok (hs, rs, any) => .ok (h :: hs, r :: rs, did || any)

/-- Processing of one row inside the `wrapCellData` loop: the row's cells
are rewritten to their heads in place, `Continuous` is set when any cell
split, and the remainders form the candidate synthetic row. -/
def processRow (maxSize : Int) (autoSize : Bool) (cols : List Int)
    (r : TabulateRow) : GoRes (TabulateRow × List GoStr) :=
  match processCells maxSize autoSize cols 0 r.Elements with
  | .crash m => .crash m
  | .ok (hs, rs, any) => .ok (⟨hs, r.Continuous || any⟩, rs)

/-- Result of the wrapping loop: the wrapped rows, a Go panic, or fuel
exhaustion of the fuel-indexed model (shown unreachable below). -/
inductive WrapRes where
  | ok : List TabulateRow → WrapRes
  | crash : String → WrapRes
  | fuelOut : WrapRes
deriving DecidableEq, Repr

/-- The row loop of `wrapCellData` (`tabulate.go:450-489`), fuel-indexed.
State: `idx` the loop index, `next` the row about to be processed, `arr`
the output accumulator.  The loop runs while `idx ≤ data.length`; after
processing, a row flagged `Continuous` is emitted and replaced by the
synthetic remainder row at the same index (Go's `index--` cancelling the
`index++`); otherwise the loop either advances to `data[idx+1]`, emits the
final row once `idx` reaches `data.length`, or (when `idx = data.length-1`)
merely advances, re-processing the same row at the next index. -/
def wrapLoop (maxSize : Int) (autoSize : Bool) (cols : List Int)
    (data : List TabulateRow) :
    Nat → Nat → TabulateRow → List TabulateRow → WrapRes
  | 0, _, _, _ => .fuelOut
  | fuel + 1, idx, next, arr =>
    if idx > data.length then .ok arr
    else
      match processRow maxSize autoSize cols next with
      | .crash m => .crash m
      | .ok (row, rems) =>
        if row.Continuous then
          wrapLoop maxSize autoSize cols data fuel idx ⟨rems, false⟩ (arr ++ [row])
        else if idx + 1 < data.length then
          wrapLoop maxSize autoSize cols data fuel (idx + 1)
            (data.getD (idx + 1) default) (arr ++ [row])
        else if idx ≥ data.length then
          wrapLoop maxSize autoSize cols data fuel (idx + 1) row (arr ++ [row])
        else
          wrapLoop maxSize autoSize cols data fuel (idx + 1) row arr

/-- Total rune count of a row's cells. -/
def rowTotal (r : TabulateRow) : Nat := (r.Elements.map List.length).sum

/-- `1` when the row is flagged `Continuous`. -/
def rowFlag (r : TabulateRow) : Nat := if r.Continuous then 1 else 0

/-- Weight of the rows not yet reached by the loop. -/
def sufW (data : List TabulateRow) (idx : Nat) : Nat :=
  ((data.drop (idx + 1)).map (fun r => 2 * rowTotal r + 1)).sum

/-- Termination measure of the wrapping loop. -/
def wrapMeasure (data : List TabulateRow) (idx : Nat) (next : TabulateRow) : Nat :=
  2 * rowTotal next + rowFlag next + sufW data idx + (data.length + 1 - idx)

/-- Fuel budget sufficient for the whole loop (proved below). -/
def wrapFuel (data : List TabulateRow) : Nat :=
  match data with
  | [] => 1
  | d0 :: _ => wrapMeasure data 0 d0 + 1

/-- `wrapCellData` (`tabulate.go:447-491`).  `t.Data[0]` on an empty row
set is the Go index-out-of-range panic. -/
def wrapCellData (maxSize : Int) (autoSize : Bool) (cols : List Int)
    (data : List TabulateRow) : WrapRes :=
  match data with
  | [] => .crash "index out of range"
  | d0 :: _ => wrapLoop maxSize autoSize cols data (wrapFuel data) 0 d0 []

/-- Natural width of column `i` (`getWidths`, `tabulate.go:301-320`): the
loop state is the pair `(widths[i], current_max)`; `widths[i]` starts at the
zero value `0`, `current_max` at the header's width, and `widths[i]` is only
assigned while visiting a row that actually has an `i`-th cell. -/
def widthStep (i : Nat) (p : Int × Int) (item : TabulateRow) : Int × Int :=
  if i < item.Elements.length then
    let s : Int := (strWidth (item.Elements.getD i []) : Int)
    if s > p.2 then (s, s) else (p.2, p.2)
  else p

/-- The per-column loop of `getWidths`, folded over the rows with the state
`(widths[i], current_max)`. -/
def colWidthGo (headers : List GoStr) (data : List TabulateRow) (i : Nat) : Int :=
  (data.foldl (widthStep i) ((0 : Int), (strWidth (headers.getD i []) : Int))).1

/-- `getWidths` (`tabulate.go:301-320`): one natural width per header
column. -/
def getWidths (headers : List GoStr) (data : List TabulateRow) : List Int :=
  (List.range headers.length).map (colWidthGo headers data)

/-- An exact rational modelling a `float64` value: an unnormalised
`num/den` fraction of integers with `den` kept positive by the operations
(no gcd normalisation, so every operation is plain integer arithmetic). -/
structure GoFrac where
  num : Int
  den : Int
deriving DecidableEq, Repr

/-- Embed an integer (`float64(n)` conversion). -/
def GoFrac.ofInt (n : Int) : GoFrac := ⟨n, 1⟩

/-- Exact `float64` division; a zero divisor (Go `±Inf`/`NaN`) yields a
zero denominator, on which no theorem below ever relies. -/
def GoFrac.div (a b : GoFrac) : GoFrac :=
  let n := a.num * b.den
  let d := a.den * b.num
  if d < 0 then ⟨-n, -d⟩ else ⟨n, d⟩

/-- Exact `float64` multiplication. -/
def GoFrac.mul (a b : GoFrac) : GoFrac := ⟨a.num * b.num, a.den * b.den⟩

/-- Exact `float64` strict comparison (by cross-multiplication; valid for
the positive denominators the operations maintain). -/
def GoFrac.blt (a b : GoFrac) : Bool := a.num * b.den < b.num * a.den

/-- `int(math.Floor(q))` on an exact rational: floor division of the
numerator by the (positive) denominator. -/
def goFloor (q : GoFrac) : Int := q.num.fdiv q.den

/-- Classification of a column by the shrink pass of `autoSize`. -/
inductive ColClass where
  | belowAvg
  | pinned
  | shrinkable
deriving DecidableEq, Repr

/-- The classification loop of `autoSize`'s shrink branch
(`tabulate.go:348-372`), over the remaining columns `cs` starting at index
`i` with running unshrinkable width `u` and running `ratio`.  A column below
the average is left at its natural width and charged to `u`; a column whose
scaled size would undershoot its header width is pinned to exactly the
header width (recomputing the ratio); the rest are marked shrinkable.  The
value stored with the class is the column's entry of `cols` after the loop
(natural width, pinned header width, or natural width awaiting the final
rescale). -/
def shrinkClassify (mp padding : Int) (headers : List GoStr)
    (fullW totalW : Int) (avg : GoFrac) :
    Nat → Int → GoFrac → List Int → List (ColClass × Int) × GoFrac
  | _, _, ratio, [] => ([], ratio)
  | i, u, ratio, c :: cs =>
    if GoFrac.blt (GoFrac.ofInt c) avg then
      let u' := u + c + mp * padding
      let ratio' := GoFrac.div (GoFrac.ofInt (fullW - u')) (GoFrac.ofInt (totalW - u'))
      let rest := shrinkClassify mp padding headers fullW totalW avg (i + 1) u' ratio' cs
      ((ColClass.belowAvg, c) :: rest.1, rest.2)
    else
      let newSize := goFloor (GoFrac.mul (GoFrac.ofInt c) ratio)
      let hw : Int := (strWidth (headers.getD i []) : Int)
      if newSize < hw then
        let u' := u + hw - c + mp * padding
        let ratio' := GoFrac.div (GoFrac.ofInt (fullW - u')) (GoFrac.ofInt (totalW - u'))
        let rest := shrinkClassify mp padding headers fullW totalW avg (i + 1) u' ratio' cs
        ((ColClass.pinned, hw) :: rest.1, rest.2)
      else
        let rest := shrinkClassify mp padding headers fullW totalW avg (i + 1) u ratio cs
        ((ColClass.shrinkable, c) :: rest.1, rest.2)

/-- Usable width after removing border and padding overhead
(`tabulate.go:336`). -/
def usableWidth (mp padding : Int) (n : Nat) (termW : Int) : Int :=
  termW - (2 + (n : Int) * (1 + padding * mp))

/-- `autoSize` (`tabulate.go:323-381`), with the terminal width passed in as
`termW` (the external width source).  Expansion scales every column by
`usable/total` and floors; shrinking classifies the columns in one forward
pass and finally rescales the shrinkable ones by the last computed ratio. -/
def autoSize (mp padding : Int) (headers : List GoStr) (cols : List Int)
    (termW : Int) : List Int :=
  let totalW := cols.sum
  let fullW := usableWidth mp padding cols.length termW
  let ratio0 := GoFrac.div (GoFrac.ofInt fullW) (GoFrac.ofInt totalW)
  let avg := GoFrac.div (GoFrac.ofInt fullW) (GoFrac.ofInt (cols.length : Int))
  if totalW ≤ fullW then
    cols.map (fun c => goFloor (GoFrac.mul (GoFrac.ofInt c) ratio0))
  else
    let cl := shrinkClassify mp padding headers fullW totalW avg 0 0 ratio0 cols
    cl.1.map (fun p =>
      match p.1 with
      | ColClass.shrinkable => goFloor (GoFrac.mul (GoFrac.ofInt p.2) cl.2)
      | _ => p.2)

/-- A border-line style (`Line`): begin glyph, fill glyph, separator glyph,
end glyph. -/
structure LineFmt where
  lineBegin : GoStr
  hline : GoStr
  lineSep : GoStr
  lineEnd : GoStr
deriving DecidableEq, Repr

/-- A row style (`Row`): begin, cell separator and end glyphs. -/
structure RowFmt where
  rowBegin : GoStr
  rowSep : GoStr
  rowEnd : GoStr
deriving DecidableEq, Repr

/-- A table style (`TableFormat`). -/
structure TableFmt where
  lineTop : LineFmt
  lineBelowHeader : LineFmt
  lineBetweenRows : LineFmt
  lineBottom : LineFmt
  headerRow : RowFmt
  dataRow : RowFmt
  padding : Int
deriving DecidableEq, Repr

/-- The `Tabulate` receiver state used by `Render`. -/
structure Tabulate where
  Data : List TabulateRow
  Headers : List GoStr
  TableFormat : TableFmt
  Align : GoStr
  EmptyVar : GoStr
  HideLines : List GoStr
  MaxSize : Int
  WrapStrings : Bool
  AutoSize : Bool
deriving DecidableEq, Repr

/-- `writeBuffer.Write(s, count)`: `s` repeated `count` times (nothing for a
non-positive count). -/
def repeatGoStr (s : GoStr) (count : Int) : GoStr :=
  (List.replicate count.toNat s).flatten

/-- `padLeft` (`tabulate.go:136-141`): right-align by writing spaces up to
the width deficit, then the string. -/
def padLeft (width : Int) (s : GoStr) : GoStr :=
  repeatGoStr [' '] (width - (strWidth s : Int)) ++ s

/-- `padRight` (`tabulate.go:144-149`): left-align. -/
def padRight (width : Int) (s : GoStr) : GoStr :=
  s ++ repeatGoStr [' '] (width - (strWidth s : Int))

/-- `padCenter` (`tabulate.go:152-160`): `ceil(deficit/2)` spaces, the
string, then spaces up to the width. -/
def padCenter (width : Int) (s : GoStr) : GoStr :=
  let pad := (width - (strWidth s : Int) + 1).fdiv 2
  let left := repeatGoStr [' '] pad ++ s
  left ++ repeatGoStr [' '] (width - (strWidth left : Int))

/-- `getAlignFunc` (`tabulate.go:403-411`): empty or `right` aligns right,
`left` aligns left, anything else centers. -/
def alignPad (align : GoStr) (width : Int) (s : GoStr) : GoStr :=
  if align.length < 1 ∨ align = "right".toList then padLeft width s
  else if align = "left".toList then padRight width s
  else padCenter width s

/-- `padRow` (`tabulate.go:120-133`): surround every cell with `padding`
spaces on each side. -/
def padRow (arr : List GoStr) (padding : Int) : List GoStr :=
  if arr.length < 1 then arr
  else arr.map (fun el => repeatGoStr [' '] padding ++ el ++ repeatGoStr [' '] padding)

/-- The cell marker substituted by the input normalizers for a Go `nil`
after `padRow` with padding 1. -/
def nilMarker : GoStr := " nil ".toList

/-- The cells of `buildRow` (`tabulate.go:194-205`): a cell missing from
`elements` or equal to `" nil "` renders as the `EmptyVar` placeholder;
every other cell renders its own content, alignment-padded to the column's
padded width. -/
def buildRowCells (align emptyVar : GoStr) (elements : List GoStr)
    (pws : List Int) : List GoStr :=
  (List.range pws.length).map (fun i =>
    if elements.length ≤ i ∨ (i < elements.length ∧ elements.getD i [] = nilMarker) then
      alignPad align (pws.getD i 0) emptyVar
    else
      alignPad align (pws.getD i 0) (elements.getD i []))

/-- Concatenation with a separator between consecutive entries (the
`if i != len-1 { buffer.WriteString(sep) }` pattern). -/
def joinSep (sep : GoStr) : List GoStr → GoStr
  | [] => []
  | [x] => x
  | x :: y :: rest => x ++ sep ++ joinSep sep (y :: rest)

/-- `buildRow` (`tabulate.go:188-209`).  The `paddings` parameter of the Go
function is unused there and omitted here. -/
def buildRow (align emptyVar : GoStr) (elements : List GoStr)
    (pws : List Int) (d : RowFmt) : GoStr :=
  d.rowBegin ++ joinSep d.rowSep (buildRowCells align emptyVar elements pws) ++ d.rowEnd

/-- `buildLine` (`tabulate.go:163-185`): per column, the fill glyph repeated
`padding[i] + MIN_PADDING` times, joined with the separator between the
begin and end glyphs. -/
def buildLine (mp : Int) (pws : List Int) (padding : List Int) (l : LineFmt) : GoStr :=
  l.lineBegin ++
    joinSep l.lineSep
      ((List.range pws.length).map (fun i => repeatGoStr l.hline (padding.getD i 0 + mp))) ++
    l.lineEnd

/-- The data-row section of `Render` (`tabulate.go:278-285`): each row,
followed by the between-rows line unless the row is the last or is flagged
`Continuous`. -/
def dataLines (build : TabulateRow → GoStr) (between : GoStr) :
    List TabulateRow → List GoStr
  | [] => []
  | [r] => [build r]
  | r :: r2 :: rest =>
    build r :: (if r.Continuous then [] else [between]) ++ dataLines build between (r2 :: rest)

/-- `inSlice`: membership of a hide-line key. -/
def inSlice (s : GoStr) (l : List GoStr) : Bool := l.contains s

/-- The initial value of the package-level variable `MIN_PADDING`
(`tabulate.go:79`). -/
def MIN_PADDING_init : Int := 5

/-- `SetAutoSize` (`tabulate.go:432-437`): unconditionally overwrites the
process-wide `MIN_PADDING` with `2` and stores the flag on the receiver.
The global is threaded explicitly: the result pairs the new global value
with the updated receiver. -/
def setAutoSize (autosize : Bool) (_minPadding : Int) (t : Tabulate) :
    Int × Tabulate :=
  (2, { t with AutoSize := autosize })

/-- `Render` (`tabulate.go:212-298`), with the process-wide `MIN_PADDING`
passed as `mp` and the terminal-width query (`termbox.Init`/`Size`) passed
as `termW` (`Except.error` models a failed query, which Go turns into
`panic(err)`).  The variadic format override is not modelled; the format is
read from the receiver. -/
def render (mp : Int) (termW : Except String Int) (t : Tabulate) : GoRes GoStr :=
  let infer : GoRes (List GoStr × List TabulateRow) :=
    if t.Headers.length < 1 then
      match t.Data with
      | [] => .crash "index out of range"
      | d0 :: rest => .ok (d0.Elements, rest)
    else .ok (t.Headers, t.Data)
  match infer with
  | .crash m => .crash m
  | .ok (headers0, data0) =>
    if data0.length < 1 then .crash "No Data specified"
    else
      let firstLen := (data0.headD default).Elements.length
      let headers :=
        if headers0.length < firstLen then
          List.replicate (firstLen - headers0.length) ([] : GoStr) ++ headers0
        else headers0
      let widthsData : GoRes (List Int × List TabulateRow) :=
        if t.AutoSize then
          let cols := getWidths headers data0
          match termW with
          | .error e => .crash e
          | .ok w =>
            let cols2 := autoSize mp t.TableFormat.padding headers cols w
            match wrapCellData t.MaxSize t.AutoSize cols2 data0 with
            | .ok d => .ok (cols2, d)
            | .crash m => .crash m
            | .fuelOut => .crash "fuelOut"
        else if t.WrapStrings then
          match wrapCellData t.MaxSize t.AutoSize [] data0 with
          | .ok d => .ok (getWidths headers d, d)
          | .crash m => .crash m
          | .fuelOut => .crash "fuelOut"
        else .ok (getWidths headers data0, data0)
      match widthsData with
      | .crash m => .crash m
      | .ok (cols, data) =>
        let pws := cols.map (fun c => c + mp * t.TableFormat.padding)
        let fmt := t.TableFormat
        let rowOf := fun (r : TabulateRow) =>
          buildRow t.Align t.EmptyVar (padRow r.Elements fmt.padding) pws fmt.dataRow
        let top := if inSlice "top".toList t.HideLines then []
                   else [buildLine mp pws cols fmt.lineTop]
        let headerLine :=
          [buildRow t.Align t.EmptyVar (padRow headers fmt.padding) pws fmt.headerRow]
        let below := if inSlice "belowheader".toList t.HideLines then []
                     else [buildLine mp pws cols fmt.lineBelowHeader]
        let body := dataLines rowOf (buildLine mp pws cols fmt.lineBetweenRows) data
        let bottom := if inSlice "bottomLine".toList t.HideLines then []
                      else [buildLine mp pws cols fmt.lineBottom]
        .ok (((top ++ headerLine ++ below ++ body ++ bottom).map (· ++ ['\n'])).flatten)

/-- Total rune count of a list of cells. -/
def totalLen (l : List GoStr) : Nat := (l.map List.length).sum

/-- Display widths of the `i`-th cells of exactly those rows that have a
cell in column `i`. -/
def presentCellWidths (data : List TabulateRow) (i : Nat) : List Int :=
  (data.filter (fun r => decide (i < r.Elements.length))).map
    (fun r => (strWidth (r.Elements.getD i []) : Int))

/-- Modelled from the spec's words for the width of column `i`: the maximum
of the header's display width and the display widths of the `i`-th cells of
the rows that have one.  Compared against `colWidthGo` below. -/
def claimColWidth (headers : List GoStr) (data : List TabulateRow) (i : Nat) : Int :=
  (presentCellWidths data i).foldl max (strWidth (headers.getD i []) : Int)

/-- The classification produced by `autoSize`'s shrink pass, exposed for the
statement about pinned columns. -/
def autoSizeClasses (mp padding : Int) (headers : List GoStr) (cols : List Int)
    (termW : Int) : List (ColClass × Int) :=
  let totalW := cols.sum
  let fullW := usableWidth mp padding cols.length termW
  (shrinkClassify mp padding headers fullW totalW
    (GoFrac.div (GoFrac.ofInt fullW) (GoFrac.ofInt (cols.length : Int)))
    0 0 (GoFrac.div (GoFrac.ofInt fullW) (GoFrac.ofInt totalW)) cols).1

/-- The built-in `grid` style. -/
def gridFmt : TableFmt :=
  { lineTop := ⟨"+".toList, "-".toList, "+".toList, "+".toList⟩
    lineBelowHeader := ⟨"+".toList, "=".toList, "+".toList, "+".toList⟩
    lineBetweenRows := ⟨"+".toList, "-".toList, "+".toList, "+".toList⟩
    lineBottom := ⟨"+".toList, "-".toList, "+".toList, "+".toList⟩
    headerRow := ⟨"|".toList, "|".toList, "|".toList⟩
    dataRow := ⟨"|".toList, "|".toList, "|".toList⟩
    padding := 1 }

/-- A table with a header but no data rows. -/
def emptyDataTable : Tabulate :=
  { Data := [], Headers := ["a".toList], TableFormat := gridFmt, Align := []
    EmptyVar := [], HideLines := [], MaxSize := 30, WrapStrings := false
    AutoSize := false }

/-- A non-empty autosized table (used against a failing width query). -/
def autoTable : Tabulate :=
  { emptyDataTable with Data := [⟨["x".toList], false⟩], AutoSize := true }

/-! ## Supporting lemmas -/

theorem truncate_nil (w : Int) : truncate [] w = [] := by
  unfold truncate takeWidth
  split <;> rfl

theorem firstIdxOf_lt_length {c : Char} :
    ∀ {s : GoStr} {k : Nat}, firstIdxOf c s = some k → k < s.length := by
  intro s
  induction s with
  | nil => intro k h; simp [firstIdxOf] at h
  | cons x xs ih =>
    intro k h
    by_cases hx : x = c
    · simp [firstIdxOf, hx] at h
      simp only [List.length_cons]
      omega
    · simp [firstIdxOf, hx] at h
      obtain ⟨a, ha, hak⟩ := h
      have := ih ha
      simp only [List.length_cons]
      omega

theorem lastIdxOf_get? {c : Char} :
    ∀ {s : GoStr} {j : Nat}, lastIdxOf c s = some j → s.get? j = some c := by
  intro s
  induction s with
  | nil => intro j h; simp [lastIdxOf] at h
  | cons x xs ih =>
    intro j h
    rw [lastIdxOf] at h
    cases hxs : lastIdxOf c xs with
    | some j' =>
      rw [hxs] at h
      injection h with h
      subst h
      simpa using ih hxs
    | none =>
      rw [hxs] at h
      by_cases hx : x = c
      · simp only [hx, if_pos rfl] at h
        injection h with h
        subst h
        simp [hx]
      · simp [hx] at h

theorem get?_lt_length {α : Type} {l : List α} {j : Nat} {a : α}
    (h : l.get? j = some a) : j < l.length := by
  by_contra hj
  rw [List.get?_eq_none.2 (by omega)] at h
  exact Option.noConfusion h

theorem splitWidth_true {e : GoStr} {w : Int} {h r : GoStr}
    (hsw : splitWidth e w = some (h, r, true)) :
    1 ≤ h.length ∧ r = e.drop h.length ∧ e ≠ [] := by
  rw [splitWidth] at hsw
  split at hsw
  · by_cases hte : (truncate e w).isEmpty
    · rw [if_pos hte] at hsw
      exact Option.noConfusion hsw
    · rw [if_neg hte] at hsw
      have htne : truncate e w ≠ [] := by
        intro hnil
        rw [hnil] at hte
        simp at hte
      have hene : e ≠ [] := by
        intro hnil
        apply htne
        rw [hnil, truncate_nil]
      simp only [Option.some.injEq, Prod.mk.injEq] at hsw
      obtain ⟨h1, h2, -⟩ := hsw
      subst h1
      refine ⟨?_, h2.symm, hene⟩
      split
      · rename_i hlast
        cases hj : lastIdxOf ' ' (truncate e w) with
        | some j =>
          simp only [hj, List.length_take]
          have := List.length_pos.2 htne
          omega
        | none =>
          simp only [hj]
          exact List.length_pos.2 htne
      · exact List.length_pos.2 htne
  · simp only [Option.some.injEq, Prod.mk.injEq] at hsw
    exact absurd hsw.2.2 (by simp)

theorem splitWidth_false {e : GoStr} {w : Int} {h r : GoStr}
    (hsw : splitWidth e w = some (h, r, false)) : h = e ∧ r = [] := by
  rw [splitWidth] at hsw
  split at hsw
  · by_cases hte : (truncate e w).isEmpty
    · rw [if_pos hte] at hsw
      exact Option.noConfusion hsw
    · rw [if_neg hte] at hsw
      simp only [Option.some.injEq, Prod.mk.injEq] at hsw
      exact absurd hsw.2.2 (by simp)
  · simp only [Option.some.injEq, Prod.mk.injEq] at hsw
    exact ⟨hsw.1.symm, hsw.2.1.symm⟩

theorem splitCell_rem_lt {e : GoStr} {w : Int} {h r : GoStr}
    (hs : splitCell e w = some (h, r, true)) : r.length < e.length := by
  cases hnl : firstIdxOf '\n' e with
  | some k =>
    simp only [splitCell, hnl] at hs
    split at hs
    · simp only [Option.some.injEq, Prod.mk.injEq] at hs
      obtain ⟨-, h2, -⟩ := hs
      have hk := firstIdxOf_lt_length hnl
      rw [← h2, List.length_drop]
      omega
    · obtain ⟨h1, h2, hene⟩ := splitWidth_true hs
      have := List.length_pos.2 hene
      rw [h2, List.length_drop]
      omega
  | none =>
    simp only [splitCell, hnl] at hs
    obtain ⟨h1, h2, hene⟩ := splitWidth_true hs
    have := List.length_pos.2 hene
    rw [h2, List.length_drop]
    omega

theorem splitCell_noSplit {e : GoStr} {w : Int} {h r : GoStr}
    (hs : splitCell e w = some (h, r, false)) : h = e ∧ r = [] := by
  cases hnl : firstIdxOf '\n' e with
  | some k =>
    simp only [splitCell, hnl] at hs
    split at hs
    · simp only [Option.some.injEq, Prod.mk.injEq] at hs
      exact absurd hs.2.2 (by simp)
    · exact splitWidth_false hs
  | none =>
    simp only [splitCell, hnl] at hs
    exact splitWidth_false hs

theorem processCells_spec (ms : Int) (as : Bool) (cols : List Int) :
    ∀ (es : List GoStr) (i : Nat) (hs rs : List GoStr) (any : Bool),
    processCells ms as cols i es = .ok (hs, rs, any) →
    totalLen rs ≤ totalLen es
    ∧ (any = true → totalLen rs < totalLen es)
    ∧ (any = false → totalLen rs = 0 ∧ hs = es) := by
  intro es
  induction es with
  | nil =>
    intro i hs rs any hp
    simp only [processCells, GoRes.ok.injEq, Prod.mk.injEq] at hp
    obtain ⟨h1, h2, h3⟩ := hp
    subst h1; subst h2; subst h3
    simp [totalLen]
  | cons e es ih =>
    intro i hs rs any hp
    rw [processCells] at hp
    cases hcap : cellCap ms as cols i with
    | crash m => simp only [hcap] at hp; exact GoRes.noConfusion hp
    | ok w =>
      simp only [hcap] at hp
      cases hsp : splitCell e w with
      | none => simp only [hsp] at hp; exact GoRes.noConfusion hp
      | some p =>
        obtain ⟨h, r, did⟩ := p
        simp only [hsp] at hp
        cases hrec : processCells ms as cols (i + 1) es with
        | crash m => simp only [hrec] at hp; exact GoRes.noConfusion hp
        | ok q =>
          obtain ⟨hs', rs', any'⟩ := q
          simp only [hrec] at hp
          simp only [GoRes.ok.injEq, Prod.mk.injEq] at hp
          obtain ⟨h1, h2, h3⟩ := hp
          subst h1; subst h2; subst h3
          obtain ⟨ih1, ih2, ih3⟩ := ih (i + 1) hs' rs' any' hrec
          have htot : totalLen (r :: rs') = r.length + totalLen rs' := by
            simp [totalLen]
          have htot2 : totalLen (e :: es) = e.length + totalLen es := by
            simp [totalLen]
          cases did with
          | true =>
            have hlt := splitCell_rem_lt hsp
            refine ⟨by omega, fun _ => by omega, fun hfalse => by simp at hfalse⟩
          | false =>
            obtain ⟨hh, hr⟩ := splitCell_noSplit hsp
            subst hh; subst hr
            have hz : (([] : GoStr)).length = 0 := rfl
            refine ⟨by omega, ?_, ?_⟩
            · intro hany
              simp only [Bool.false_or] at hany
              have := ih2 hany
              omega
            · intro hany
              simp only [Bool.false_or] at hany
              obtain ⟨hz', hhs⟩ := ih3 hany
              subst hhs
              exact ⟨by omega, rfl⟩

theorem processRow_continuous (ms : Int) (as : Bool) (cols : List Int)
    {r row : TabulateRow} {rems : List GoStr}
    (hp : processRow ms as cols r = .ok (row, rems))
    (hc : row.Continuous = true) :
    2 * totalLen rems < 2 * rowTotal r + rowFlag r := by
  rw [processRow] at hp
  cases hpc : processCells ms as cols 0 r.Elements with
  | crash m => simp only [hpc] at hp; exact GoRes.noConfusion hp
  | ok q =>
    obtain ⟨hs, rs, any⟩ := q
    simp only [hpc] at hp
    simp only [GoRes.ok.injEq, Prod.mk.injEq] at hp
    obtain ⟨h1, h2⟩ := hp
    subst h2
    obtain ⟨s1, s2, s3⟩ := processCells_spec ms as cols r.Elements 0 hs rs any hpc
    have hrt : rowTotal r = totalLen r.Elements := rfl
    cases hany : any with
    | true =>
      have := s2 hany
      omega
    | false =>
      obtain ⟨hz, -⟩ := s3 hany
      have hrc : r.Continuous = true := by
        rw [← h1] at hc
        simp only [hany, Bool.or_false] at hc
        exact hc
      have : rowFlag r = 1 := by simp [rowFlag, hrc]
      omega

theorem processRow_stable (ms : Int) (as : Bool) (cols : List Int)
    {r row : TabulateRow} {rems : List GoStr}
    (hp : processRow ms as cols r = .ok (row, rems))
    (hc : row.Continuous = false) :
    rowTotal row = rowTotal r ∧ rowFlag row = 0 := by
  rw [processRow] at hp
  cases hpc : processCells ms as cols 0 r.Elements with
  | crash m => simp only [hpc] at hp; exact GoRes.noConfusion hp
  | ok q =>
    obtain ⟨hs, rs, any⟩ := q
    simp only [hpc] at hp
    simp only [GoRes.ok.injEq, Prod.mk.injEq] at hp
    obtain ⟨h1, h2⟩ := hp
    obtain ⟨s1, s2, s3⟩ := processCells_spec ms as cols r.Elements 0 hs rs any hpc
    have hany : any = false := by
      rw [← h1] at hc
      simp only [Bool.or_eq_false_iff] at hc
      exact hc.2
    obtain ⟨-, hhs⟩ := s3 hany
    subst hhs
    constructor
    · rw [← h1]
      rfl
    · simp [rowFlag, hc]

theorem rowFlag_le_one (r : TabulateRow) : rowFlag r ≤ 1 := by
  rw [rowFlag]
  split <;> omega

theorem sufW_succ (data : List TabulateRow) (idx : Nat) (h : idx + 1 < data.length) :
    sufW data idx = 2 * rowTotal (data.getD (idx + 1) default) + 1 + sufW data (idx + 1) := by
  unfold sufW
  rw [← List.getElem_cons_drop data (idx + 1) h]
  rw [List.getD_eq_getElem data default h]
  simp only [List.map_cons, List.sum_cons]

theorem sufW_zero (data : List TabulateRow) (idx : Nat) (h : data.length ≤ idx + 1) :
    sufW data idx = 0 := by
  unfold sufW
  rw [List.drop_eq_nil_of_le h]
  simp

theorem wrapLoop_ne_fuelOut (ms : Int) (as : Bool) (cols : List Int)
    (data : List TabulateRow) :
    ∀ (fuel : Nat) (idx : Nat) (next : TabulateRow) (arr : List TabulateRow),
    wrapMeasure data idx next < fuel →
    wrapLoop ms as cols data fuel idx next arr ≠ .fuelOut := by
  intro fuel
  induction fuel with
  | zero => intro idx next arr h; omega
  | succ fuel ih =>
    intro idx next arr h
    rw [wrapLoop]
    by_cases hidx : idx > data.length
    · simp [hidx]
    · rw [if_neg hidx]
      cases hpr : processRow ms as cols next with
      | crash m => simp
      | ok q =>
        obtain ⟨row, rems⟩ := q
        dsimp only
        have hmeas : wrapMeasure data idx next ≤ fuel := by omega
        by_cases hc : row.Continuous = true
        · simp only [hc, if_true]
          apply ih
          have hlt := processRow_continuous ms as cols hpr hc
          have h1 : wrapMeasure data idx ⟨rems, false⟩ =
              2 * totalLen rems + 0 + sufW data idx + (data.length + 1 - idx) := by
            simp [wrapMeasure, rowTotal, rowFlag, totalLen]
          have h2 : wrapMeasure data idx next =
              2 * rowTotal next + rowFlag next + sufW data idx + (data.length + 1 - idx) := rfl
          omega
        · have hcf : row.Continuous = false := by
            cases hrc : row.Continuous
            · rfl
            · exact absurd hrc hc
          rw [if_neg hc]
          obtain ⟨hrt, hrf⟩ := processRow_stable ms as cols hpr hcf
          by_cases h2 : idx + 1 < data.length
          · rw [if_pos h2]
            apply ih
            have hsw := sufW_succ data idx h2
            have e1 : wrapMeasure data (idx + 1) (data.getD (idx + 1) default) =
                2 * rowTotal (data.getD (idx + 1) default) +
                  rowFlag (data.getD (idx + 1) default) + sufW data (idx + 1) +
                  (data.length + 1 - (idx + 1)) := rfl
            have e2 : wrapMeasure data idx next =
                2 * rowTotal next + rowFlag next + sufW data idx +
                  (data.length + 1 - idx) := rfl
            have hf := rowFlag_le_one (data.getD (idx + 1) default)
            omega
          · rw [if_neg h2]
            by_cases h3 : idx ≥ data.length
            · rw [if_pos h3]
              apply ih
              have hz1 : sufW data idx = 0 := sufW_zero data idx (by omega)
              have hz2 : sufW data (idx + 1) = 0 := sufW_zero data (idx + 1) (by omega)
              have e1 : wrapMeasure data (idx + 1) row =
                  2 * rowTotal row + rowFlag row + sufW data (idx + 1) +
                    (data.length + 1 - (idx + 1)) := rfl
              have e2 : wrapMeasure data idx next =
                  2 * rowTotal next + rowFlag next + sufW data idx +
                    (data.length + 1 - idx) := rfl
              omega
            · rw [if_neg h3]
              apply ih
              have hz1 : sufW data idx = 0 := sufW_zero data idx (by omega)
              have hz2 : sufW data (idx + 1) = 0 := sufW_zero data (idx + 1) (by omega)
              have e1 : wrapMeasure data (idx + 1) row =
                  2 * rowTotal row + rowFlag row + sufW data (idx + 1) +
                    (data.length + 1 - (idx + 1)) := rfl
              have e2 : wrapMeasure data idx next =
                  2 * rowTotal next + rowFlag next + sufW data idx +
                    (data.length + 1 - idx) := rfl
              omega

theorem presentCellWidths_nil {ds : List TabulateRow} {i : Nat}
    (h : ds.any (fun r => decide (i < r.Elements.length)) = false) :
    presentCellWidths ds i = [] := by
  unfold presentCellWidths
  rw [List.filter_eq_nil_iff.2]
  · rfl
  · intro a ha
    simp only [List.any_eq_false] at h
    exact h a ha

theorem widthStep_fold (i : Nat) :
    ∀ (ds : List TabulateRow) (w cur : Int),
    ds.foldl (widthStep i) (w, cur) =
      ((if ds.any (fun r => decide (i < r.Elements.length)) then
          (presentCellWidths ds i).foldl max cur
        else w),
       (presentCellWidths ds i).foldl max cur) := by
  intro ds
  induction ds with
  | nil =>
    intro w cur
    simp [presentCellWidths]
  | cons d ds ih =>
    intro w cur
    by_cases hp : i < d.Elements.length
    · have hstep : widthStep i (w, cur) d =
          (max cur (strWidth (d.Elements.getD i []) : Int),
           max cur (strWidth (d.Elements.getD i []) : Int)) := by
        rw [widthStep, if_pos hp]
        rcases le_or_lt (strWidth (d.Elements.getD i []) : Int) cur with hle | hlt
        · rw [if_neg (by omega), max_eq_left hle]
        · rw [if_pos (by omega), max_eq_right (le_of_lt hlt)]
      have hpcw : presentCellWidths (d :: ds) i =
          (strWidth (d.Elements.getD i []) : Int) :: presentCellWidths ds i := by
        unfold presentCellWidths
        rw [List.filter_cons_of_pos (by simpa using hp)]
        rfl
      have hany : (d :: ds).any (fun r => decide (i < r.Elements.length)) = true := by
        simp [hp]
      rw [List.foldl_cons, hstep, ih, hpcw, hany]
      simp only [List.foldl_cons, if_true]
      by_cases hds : ds.any (fun r => decide (i < r.Elements.length))
      · rw [if_pos hds]
      · rw [if_neg hds, presentCellWidths_nil (by simpa using hds)]
        simp
    · have hpcw : presentCellWidths (d :: ds) i = presentCellWidths ds i := by
        unfold presentCellWidths
        rw [List.filter_cons_of_neg (by simpa using hp)]
      have hany : (d :: ds).any (fun r => decide (i < r.Elements.length)) =
          ds.any (fun r => decide (i < r.Elements.length)) := by
        simp [hp]
      have hstep : widthStep i (w, cur) d = (w, cur) := by
        rw [widthStep, if_neg hp]
      rw [List.foldl_cons, hstep, ih, hpcw, hany]

theorem shrinkClassify_pinned (mp padding : Int) (headers : List GoStr)
    (fullW totalW : Int) (avg : GoFrac) :
    ∀ (cs : List Int) (i : Nat) (u : Int) (ratio : GoFrac) (j : Nat) (v : Int),
    (shrinkClassify mp padding headers fullW totalW avg i u ratio cs).1.get? j =
      some (ColClass.pinned, v) →
    v = (strWidth (headers.getD (i + j) []) : Int) := by
  intro cs
  induction cs with
  | nil =>
    intro i u ratio j v h
    simp [shrinkClassify] at h
  | cons c cs ih =>
    intro i u ratio j v h
    rw [shrinkClassify] at h
    split at h
    · cases j with
      | zero => simp at h
      | succ j =>
        simp only [List.get?_cons_succ] at h
        have hidx : i + (j + 1) = (i + 1) + j := by omega
        rw [hidx]
        exact ih (i + 1) _ _ j v h
    · dsimp only at h
      split at h
      · cases j with
        | zero =>
          simp only [List.get?_cons_zero, Option.some.injEq, Prod.mk.injEq] at h
          rw [← h.2]
          simp
        | succ j =>
          simp only [List.get?_cons_succ] at h
          have hidx : i + (j + 1) = (i + 1) + j := by omega
          rw [hidx]
          exact ih (i + 1) _ _ j v h
      · cases j with
        | zero => simp at h
        | succ j =>
          simp only [List.get?_cons_succ] at h
          have hidx : i + (j + 1) = (i + 1) + j := by omega
          rw [hidx]
          exact ih (i + 1) _ _ j v h

theorem processRow_single (m : Int) (e h r : GoStr) (did : Bool) (cont : Bool)
    (hs : splitCell e m = some (h, r, did)) :
    processRow m false [] ⟨[e], cont⟩ = .ok (⟨[h], cont || did⟩, [r]) := by
  simp [processRow, processCells, cellCap, hs]

/-! ## Claim theorems -/

/-- C1.  The wrapping pass is not idempotent: wrapping `[["abcdef"]]` at
capacity 3 yields the two rows `["abc"] (Continuous) / ["def"]`, but
re-wrapping that output with the same capacity inserts a spurious empty
continuation row after the row still flagged `Continuous` (the loop trusts
the stale flag and queues an all-blank synthetic row), so the claimed
identity `wrap (wrap rows) = wrap rows` fails at this input. -/
theorem c1_theorem :
    wrapCellData 3 false [] [⟨["abcdef".toList], false⟩] =
      .ok [⟨["abc".toList], true⟩, ⟨["def".toList], false⟩] ∧
    wrapCellData 3 false [] [⟨["abc".toList], true⟩, ⟨["def".toList], false⟩] =
      .ok [⟨["abc".toList], true⟩, ⟨[[]], false⟩, ⟨["def".toList], false⟩] ∧
    (([⟨["abc".toList], true⟩, ⟨[([] : GoStr)], false⟩, ⟨["def".toList], false⟩] :
        List TabulateRow) ≠
      [⟨["abc".toList], true⟩, ⟨["def".toList], false⟩]) := by
  refine ⟨by decide, by decide, by decide⟩

/-- C4 (counterexample).  The claimed formula
`width i = max(header i, cells present in column i)` fails when no row has
a cell in column `i`: for headers `["a","bb"]` and the single row `["x"]`,
`getWidths` returns `[1, 0]` (the `widths` slot keeps its zero value), while
the claim demands `max(DisplayWidth "bb") = 2` for column 1. -/
theorem c4_counterexample :
    getWidths ["a".toList, "bb".toList] [⟨["x".toList], false⟩] = [1, 0] ∧
    claimColWidth ["a".toList, "bb".toList] [⟨["x".toList], false⟩] 1 = 2 ∧
    ((0 : Int) ≠ 2) := by
  refine ⟨by decide, by decide, by decide⟩

/-- C4 (amended).  For every header list and row set, the natural width of
column `i` equals the claimed `max(header width, widths of the cells
present in column i)` whenever at least one row has a cell in column `i`;
a column that no row reaches gets width `0`, not its header width.  Rows
shorter than `i+1` are skipped and do not drag the maximum down. -/
theorem c4_theorem (headers : List GoStr) (data : List TabulateRow) :
    getWidths headers data = (List.range headers.length).map (fun i =>
      if data.any (fun r => decide (i < r.Elements.length)) then
        claimColWidth headers data i
      else 0) := by
  unfold getWidths
  apply List.map_congr_left
  intro i _
  rw [colWidthGo, widthStep_fold]
  unfold claimColWidth
  rfl

/-- C6.  The wrapping pass terminates on every finite row set and every
capacity assignment: the fuel-indexed model of the loop, run with the
explicit budget `wrapFuel data` derived from the termination measure
(each splitting step strictly shrinks the remaining content of every cell
it splits, proved in `splitCell_rem_lt` / `processRow_continuous`), never
exhausts its fuel — it always ends in a normal result or a Go panic. -/
theorem c6_theorem (maxSize : Int) (autoSize : Bool) (cols : List Int)
    (data : List TabulateRow) :
    wrapCellData maxSize autoSize cols data ≠ WrapRes.fuelOut := by
  cases data with
  | nil => simp [wrapCellData]
  | cons d0 rest =>
    simp only [wrapCellData]
    exact wrapLoop_ne_fuelOut maxSize autoSize cols (d0 :: rest)
      (wrapFuel (d0 :: rest)) 0 d0 []
      (by rw [wrapFuel]; omega)

/-- C7.  Newline priority: an over-capacity cell whose first newline lies
strictly before the capacity-sized cut point is split exactly at that
newline — head is the text before it, remainder the text after it — with
no word-boundary adjustment. -/
theorem c7_theorem (e : GoStr) (cap : Int) (k : Nat)
    (_hover : (strWidth e : Int) > cap)
    (hnl : firstIdxOf '\n' e = some k)
    (hk : (k : Int) < cap) :
    splitCell e cap = some (e.take k, e.drop (k + 1), true) := by
  simp only [splitCell, hnl, if_pos hk]

/-- C7 (witness): the cell `"ab\ncdefgh"` at capacity 5 is over capacity,
its newline sits at index 2 < 5, and the split lands exactly there. -/
theorem c7_witness :
    (strWidth ("ab\ncdefgh".toList) : Int) > 5 ∧
    splitCell ("ab\ncdefgh".toList) 5 =
      some (("ab\ncdefgh".toList).take 2, ("ab\ncdefgh".toList).drop 3, true) :=
  ⟨by decide, c7_theorem ("ab\ncdefgh".toList) 5 2 (by decide) (by decide) (by decide)⟩

/-- C8 (counterexample).  Splitting `"ab cd"` at capacity 4 backs up to the
space, but the space is kept at the end of the head (`"ab "`), not
discarded from both parts as the claim states. -/
theorem c8_counterexample :
    splitCell ("ab cd".toList) 4 = some ("ab ".toList, "cd".toList, true) ∧
    ' ' ∈ "ab ".toList := by
  refine ⟨by decide, by decide⟩

/-- C8 (amended).  For a width-based cut whose boundary character is not
whitespace and whose truncated head contains a space at position `j`, the
cut backs up to just after that space: head is the original text up to and
including the space (so the space remains the head's last character), and
the remainder starts right after it — the space is excluded from the
remainder only. -/
theorem c8_theorem (e : GoStr) (cap : Int) (j : Nat)
    (hnl : firstIdxOf '\n' e = none)
    (hover : (strWidth e : Int) > cap)
    (hne : (truncate e cap).isEmpty = false)
    (hlast : (truncate e cap).getLastD ' ' ≠ ' ')
    (hj : lastIdxOf ' ' (truncate e cap) = some j) :
    splitCell e cap = some ((truncate e cap).take (j + 1), e.drop (j + 1), true) ∧
    (truncate e cap).take (j + 1) = (truncate e cap).take j ++ [' '] := by
  have hget := lastIdxOf_get? hj
  have hjlt : j < (truncate e cap).length := get?_lt_length hget
  have htake : (truncate e cap).take (j + 1) = (truncate e cap).take j ++ [' '] := by
    rw [List.take_succ]
    rw [show (truncate e cap)[j]? = some ' ' from by
      rw [← List.get?_eq_getElem?]; exact hget]
    rfl
  refine ⟨?_, htake⟩
  have hlen : ((truncate e cap).take (j + 1)).length = j + 1 := by
    rw [List.length_take]
    omega
  simp only [splitCell, hnl, splitWidth, if_pos hover]
  rw [if_neg (by simp [hne])]
  simp only [hj]
  rw [if_pos hlast, hlen]

/-- C8 (witness): `"ab cd"` at capacity 4 truncates to `"ab c"`, whose last
character is not a space; the last space sits at index 2, and the split
keeps it at the end of the head. -/
theorem c8_witness :
    (strWidth ("ab cd".toList) : Int) > 4 ∧
    (splitCell ("ab cd".toList) 4 =
        some ((truncate ("ab cd".toList) 4).take 3, ("ab cd".toList).drop 3, true) ∧
      (truncate ("ab cd".toList) 4).take 3 = (truncate ("ab cd".toList) 4).take 2 ++ [' ']) :=
  ⟨by decide,
   c8_theorem ("ab cd".toList) 4 2 (by decide) (by decide) (by decide) (by decide) (by decide)⟩

/-- C10.  `SetAutoSize`, called with either `true` or `false`, overwrites
the process-wide `MIN_PADDING` (initially 5) with 2 and only stores the
flag on its receiver; every subsequent render of every table — not just the
receiver — then runs with the global padding value 2. -/
theorem c10_theorem :
    MIN_PADDING_init = 5 ∧
    ∀ (b : Bool) (g : Int) (t : Tabulate),
      (setAutoSize b g t).1 = 2 ∧
      (setAutoSize b g t).2 = { t with AutoSize := b } ∧
      ∀ (t2 : Tabulate) (tw : Except String Int),
        render (setAutoSize b g t).1 tw t2 = render 2 tw t2 :=
  ⟨rfl, fun _ _ _ => ⟨rfl, rfl, fun _ _ => rfl⟩⟩

/-- C2 (counterexample).  The autosizer enforces no header floor in its
expansion branch: with one column of natural width 2, header `"abcdef"`
(display width 6) and terminal width 10 (usable width 2, ratio exactly 1),
`autoSize` returns width 2, below the header's width 6.  All intermediate
`float64` values at this input (2, 1, 2) are exact, so the rational model
coincides with the source arithmetic. -/
theorem c2_counterexample :
    autoSize 5 1 ["abcdef".toList] [2] 10 = [2] ∧
    (strWidth ("abcdef".toList) : Int) = 6 ∧ ¬((6 : Int) ≤ 2) := by
  refine ⟨by decide, by decide, by decide⟩

/-- C2 (amended).  The header floor is enforced exactly for the columns the
shrink pass pins: in the shrink branch, a column classified `pinned`
(at-or-above-average width whose scaled size would undershoot its header)
is returned at precisely its header's display width.  Expansion-branch
columns, below-average columns and shrinkable columns get no such floor. -/
theorem c2_theorem (mp padding : Int) (headers : List GoStr) (cols : List Int)
    (termW : Int) (j : Nat) (v : Int)
    (hshrink : usableWidth mp padding cols.length termW < cols.sum)
    (hpin : (autoSizeClasses mp padding headers cols termW).get? j =
      some (ColClass.pinned, v)) :
    (autoSize mp padding headers cols termW).get? j =
      some ((strWidth (headers.getD j []) : Int)) := by
  unfold autoSizeClasses at hpin
  dsimp only at hpin
  have hv : v = (strWidth (headers.getD (0 + j) []) : Int) :=
    shrinkClassify_pinned mp padding headers _ _ _ cols 0 0 _ j v hpin
  rw [autoSize]
  dsimp only
  rw [if_neg (by omega)]
  rw [List.get?_map, hpin]
  dsimp only [Option.map]
  rw [hv]
  simp

/-- C2 (witness): headers `["abcdefghi","ab"]`, natural widths `[10,10]`,
terminal width 30 (usable 16 < total 20, average 8, initial ratio 4/5);
column 0 scales to 8 < header width 9, so it is pinned and returned at 9.
Ratios 4/5 and 3/4 are dyadic-adjacent small rationals, exact in
`float64`. -/
theorem c2_witness :
    usableWidth 5 1 2 30 < ([10, 10] : List Int).sum ∧
    (autoSizeClasses 5 1 ["abcdefghi".toList, "ab".toList] [10, 10] 30).get? 0 =
      some (ColClass.pinned, 9) ∧
    (autoSize 5 1 ["abcdefghi".toList, "ab".toList] [10, 10] 30).get? 0 =
      some ((strWidth ((["abcdefghi".toList, "ab".toList] : List GoStr).getD 0 []) : Int)) :=
  ⟨by decide, by decide,
   c2_theorem 5 1 ["abcdefghi".toList, "ab".toList] [10, 10] 30 0 9
     (by decide) (by decide)⟩

/-- C3 (counterexample).  Both fatal conditions abort instead of returning
an error value: rendering a table with a header but no data rows panics
with `"No Data specified"`, and rendering an autosized table whose
terminal-width query fails panics with the query's error — `Render`'s
only normal return is the final string, so neither condition reaches the
caller as an error value. -/
theorem c3_counterexample :
    render 5 (.ok 80) emptyDataTable = .crash "No Data specified" ∧
    render 5 (.error "termbox init failed") autoTable =
      .crash "termbox init failed" := by
  refine ⟨by decide, by decide⟩

/-- C3 (amended).  Both fatal conditions — no data rows, and a failed
terminal-width query under autosize — are detected before any output is
assembled, but each aborts the render with a Go panic (modelled `crash`);
no error value is ever returned to the caller. -/
theorem c3_theorem :
    (∀ (mp : Int) (termW : Except String Int) (t : Tabulate),
       1 ≤ t.Headers.length → t.Data = [] →
       render mp termW t = .crash "No Data specified") ∧
    (∀ (mp : Int) (e : String) (t : Tabulate),
       1 ≤ t.Headers.length → t.Data ≠ [] → t.AutoSize = true →
       render mp (.error e) t = .crash e) := by
  constructor
  · intro mp termW t hh hd
    rw [render]
    rw [if_neg (by omega)]
    dsimp only
    rw [hd]
    simp
  · intro mp e t hh hd ha
    have hlen : 0 < t.Data.length := List.length_pos.2 hd
    rw [render]
    rw [if_neg (by omega)]
    dsimp only
    rw [if_neg (by omega)]
    rw [ha]
    simp

/-- C3 (witness): the amended statement applied to the concrete tables. -/
theorem c3_witness :
    (1 ≤ emptyDataTable.Headers.length ∧ emptyDataTable.Data = [] ∧
      render 7 (.ok 99) emptyDataTable = .crash "No Data specified") ∧
    (1 ≤ autoTable.Headers.length ∧ autoTable.Data ≠ [] ∧
      autoTable.AutoSize = true ∧
      render 7 (.error "width query failed") autoTable =
        .crash "width query failed") :=
  ⟨⟨by decide, rfl, c3_theorem.1 7 (.ok 99) emptyDataTable (by decide) rfl⟩,
   ⟨by decide, by decide, rfl,
    c3_theorem.2 7 "width query failed" autoTable (by decide) (by decide) rfl⟩⟩

/-- C5 (counterexample).  The flag polarity is the reverse of the claim:
wrapping `[["abcdef"]]` at capacity 3 emits the original row (head
`"abc"`) flagged `Continuous = true` and the synthetic remainder row
(`"def"`) flagged `false`, where the claim demands `isContinuation=false`
for the original and `true` for the remainder. -/
theorem c5_counterexample :
    wrapCellData 3 false [] [⟨["abcdef".toList], false⟩] =
      .ok [⟨["abc".toList], true⟩, ⟨["def".toList], false⟩] ∧
    (⟨["abc".toList], true⟩ : TabulateRow).Continuous = true ∧
    (⟨["def".toList], false⟩ : TabulateRow).Continuous = false := by
  refine ⟨by decide, rfl, rfl⟩

/-- C5 (amended).  For a single-row table whose one cell splits exactly
once, the original row (holding the split head) is emitted first and is
the one flagged `Continuous = true` (marking that its continuation
follows, which suppresses the separator after it); the synthetic remainder
row immediately follows it flagged `false`.  In general every row that is
split again carries `true` and the final remainder carries `false` — the
polarity is attached to the continued row, not to the continuation. -/
theorem c5_theorem (m : Int) (e hd rm : GoStr)
    (h1 : splitCell e m = some (hd, rm, true))
    (h2 : splitCell rm m = some (rm, [], false)) :
    wrapCellData m false [] [⟨[e], false⟩] =
      .ok [⟨[hd], true⟩, ⟨[rm], false⟩] := by
  have he : 1 ≤ e.length := by
    have := splitCell_rem_lt h1
    omega
  have p1 := processRow_single m e hd rm true false h1
  have p2 := processRow_single m rm rm [] false false h2
  have hfuel : wrapFuel [⟨[e], false⟩] = 2 * e.length + 3 := by
    simp [wrapFuel, wrapMeasure, rowTotal, rowFlag, sufW]
  obtain ⟨n, hn⟩ : ∃ n, 2 * e.length + 3 = n + 1 + 1 + 1 + 1 + 1 :=
    ⟨2 * e.length - 2, by omega⟩
  simp only [wrapCellData, hfuel, hn]
  rw [wrapLoop]
  simp only [show ¬(0 > ([⟨[e], false⟩] : List TabulateRow).length) by simp,
    if_false, p1]
  dsimp only
  simp only [Bool.false_or, if_true]
  rw [wrapLoop]
  simp only [show ¬(0 > ([⟨[e], false⟩] : List TabulateRow).length) by simp,
    if_false, p2]
  dsimp only
  simp only [Bool.false_or, Bool.or_false]
  rw [if_neg (by simp), if_neg (by simp), if_neg (by simp)]
  rw [wrapLoop]
  rw [if_neg (by simp)]
  rw [p2]
  dsimp only
  simp only [Bool.or_false]
  rw [if_neg (by simp), if_neg (by simp), if_pos (by simp)]
  rw [wrapLoop]
  rw [if_pos (by simp)]
  simp

/-- C5 (witness): `"abcdef"` at capacity 3 splits once into `"abc"`/`"def"`,
and the wrap emits `("abc", Continuous=true)` then `("def", false)`. -/
theorem c5_witness :
    splitCell ("abcdef".toList) 3 = some ("abc".toList, "def".toList, true) ∧
    splitCell ("def".toList) 3 = some ("def".toList, [], false) ∧
    wrapCellData 3 false [] [⟨["abcdef".toList], false⟩] =
      .ok [⟨["abc".toList], true⟩, ⟨["def".toList], false⟩] :=
  ⟨by decide, by decide,
   c5_theorem 3 ("abcdef".toList) ("abc".toList) ("def".toList)
     (by decide) (by decide)⟩

/-- C9 (counterexample).  An empty-string data cell is not replaced by the
configured placeholder: with placeholder `"XX"`, padded widths `[4]` and
a grid-style data row, the empty cell renders as bare spaces `"|    |"`,
not as the alignment-padded placeholder `"|  XX|"`. -/
theorem c9_counterexample :
    buildRow [] "XX".toList (padRow [([] : GoStr)] 1) [4]
        ⟨"|".toList, "|".toList, "|".toList⟩ = "|    |".toList ∧
    alignPad [] 4 "XX".toList = "  XX".toList ∧
    ("|    |".toList ≠ ("|" ++ "  XX" ++ "|").toList) := by
  refine ⟨by decide, by decide, by decide⟩

/-- C9 (amended).  `buildRow` substitutes the `EmptyVar` placeholder only
for a cell that is missing (the row is shorter than the width list) or
whose padded content is exactly the marker `" nil "`; every other present
cell — the empty string included — renders its own content,
alignment-padded into the column's padded width. -/
theorem c9_theorem (align emptyVar : GoStr) (elements : List GoStr)
    (pws : List Int) (i : Nat)
    (hi : i < pws.length)
    (hpresent : i < elements.length)
    (hmark : elements.getD i [] ≠ nilMarker) :
    (buildRowCells align emptyVar elements pws).get? i =
      some (alignPad align (pws.getD i 0) (elements.getD i [])) := by
  unfold buildRowCells
  rw [List.get?_map]
  rw [List.get?_range hi]
  dsimp only [Option.map]
  rw [if_neg ?hcond]
  case hcond =>
    intro hcontra
    rcases hcontra with hshort | ⟨-, hm⟩
    · omega
    · exact hmark hm

/-- C9 (witness): a present empty cell at padded width 4 with right
alignment renders as four spaces, its own (empty) content padded — not as
the placeholder. -/
theorem c9_witness :
    (0 < ([4] : List Int).length ∧ 0 < ([([] : GoStr)] : List GoStr).length ∧
      ([([] : GoStr)] : List GoStr).getD 0 [] ≠ nilMarker) ∧
    (buildRowCells [] "XX".toList [([] : GoStr)] [4]).get? 0 =
      some (alignPad [] (([4] : List Int).getD 0 0)
        (([([] : GoStr)] : List GoStr).getD 0 [])) :=
  ⟨⟨by decide, by decide, by decide⟩,
   c9_theorem [] ("XX".toList) [([] : GoStr)] [4] 0 (by decide) (by decide) (by decide)⟩
